import Mathlib

/-!
Shallow embedding of `src/utilities.py` (module `utilities`): a region-name
expander over a fixed nested lookup table, and two geospatial filter
functions built on a spatial join.

Python strings become `String`, Python dicts become association lists
(`List (key × value)`, membership/indexing embedded as `List.lookup`),
the Python `set` accumulator becomes `Finset String` (the final
`list(result)` has unspecified order, so claims are settled on the set
content), and geopandas data frames become an explicit record type below.
-/

/-- Embedding of Python `str.lower()` (inputs in this program are ASCII,
where `Char.toLower` agrees with Python's lowering). -/
def strLower (s : String) : String := ⟨s.data.map Char.toLower⟩

/-- The nested region table type: macro-region name ↦ (subregion name ↦
state abbreviations). -/
abbrev RegionTable := List (String × List (String × List String))

/-- Subtable of the `"northeast"` key of the `regions` dict
(src/utilities.py lines 19-22). -/
def northeastSubregions : List (String × List String) :=
  [("new england", ["CT", "ME", "MA", "NH", "RI", "VT"]),
   ("mid-atlantic", ["NJ", "NY", "PA"])]

/-- Subtable of the `"midwest"` key of the `regions` dict
(src/utilities.py lines 23-27). -/
def midwestSubregions : List (String × List String) :=
  [("east north central", ["IL", "IN", "MI", "OH", "WI"]),
   ("west north central", ["IA", "KS", "MN", "MO", "NE", "ND", "SD"]),
   ("upper midwest", ["MN", "WI", "IA", "ND", "SD"])]

/-- Subtable of the `"South"` key of the `regions` dict
(src/utilities.py lines 28-33); note the capitalized key in the source. -/
def southSubregions : List (String × List String) :=
  [("south atlantic", ["DE", "FL", "GA", "MD", "NC", "SC", "VA", "DC", "WV"]),
   ("east south central", ["AL", "KY", "MS", "TN"]),
   ("west south central", ["AR", "LA", "OK", "TX"]),
   ("deep south", ["AL", "GA", "LA", "MS", "SC"])]

/-- Subtable of the `"west"` key of the `regions` dict
(src/utilities.py lines 34-39). -/
def westSubregions : List (String × List String) :=
  [("mountain", ["AZ", "CO", "ID", "MT", "NV", "NM", "UT", "WY"]),
   ("pacific", ["AK", "CA", "HI", "OR", "WA"]),
   ("pacific northwest", ["OR", "WA", "ID"]),
   ("southwest", ["AZ", "NM", "OK", "TX"])]

/-- The `regions` dict literal of `get_state_abbreviations_from_region`
(src/utilities.py lines 18-40).  The `"South"` key is capitalized exactly
as in the source. -/
def regionsTable : RegionTable :=
  [("northeast", northeastSubregions),
   ("midwest", midwestSubregions),
   ("South", southSubregions),
   ("west", westSubregions)]

/-- One step of the inner loop `for main_region in regions.values(): if
region_name.lower() in main_region: result = result.union(...)`
(src/utilities.py lines 54-56), for a fixed already-lowered key. -/
def subContributionStep (key : String) (result : Finset String)
    (entry : String × List (String × List String)) : Finset String :=
  match List.lookup key entry.2 with
  | some abbrs => result ∪ abbrs.toFinset
  | none => result

/-- Body of the outer loop `for region_name in region_names` of
`get_state_abbreviations_from_region` (src/utilities.py lines 44-56):
first the macro-region membership test and union over all its subregions
(lines 45-52), then the pass over every macro-region's subtable
(lines 54-56). -/
def processName (regions : RegionTable) (result : Finset String)
    (region_name : String) : Finset String :=
  let result :=
    match List.lookup (strLower region_name) regions with
    | some subs => result ∪ (subs.flatMap Prod.snd).toFinset
    | none => result
  regions.foldl (subContributionStep (strLower region_name)) result

/-- The lookup algorithm of `get_state_abbreviations_from_region`
(src/utilities.py lines 42-58) parameterized by the region table; the
source hard-codes `regionsTable`.  The Python `set` accumulator starting
at `set()` is the empty `Finset`. -/
def getStateAbbreviationsCore (regions : RegionTable)
    (region_names : List String) : Finset String :=
  region_names.foldl (processName regions) ∅

/-- `get_state_abbreviations_from_region` (src/utilities.py lines 7-58)
applied to a list of names (a single `str` argument is wrapped into a
one-element list by lines 15-16); the returned `list(result)` is modelled
by its set of elements. -/
def get_state_abbreviations_from_region (region_names : List String) :
    Finset String :=
  getStateAbbreviationsCore regionsTable region_names

/-! ## Geospatial model

Geometries are modelled as finite point sets over `Int × Int`; the
`intersects` predicate of the spec's glossary ("share at least one
point") is non-empty intersection of the point sets.  A coordinate
reference system (CRS) is a `Nat` tag and reprojection is an explicit
parameter `reproj : Nat → Nat → Geom → Geom` (source CRS, target CRS,
geometry), standing for the third-party transform used by `to_crs`. -/

/-- A geometry: a finite set of points. -/
structure Geom where
  pts : List (Int × Int)
deriving DecidableEq

/-- The `intersects` spatial predicate used by `gpd.sjoin`
(src/utilities.py line 100): the two geometries share at least one
point. -/
def intersects (a b : Geom) : Bool :=
  a.pts.any (fun p => b.pts.contains p)

/-- A data-frame row: non-geometry columns as an association list plus a
geometry column. -/
structure Feature where
  attrs : List (String × String)
  geom : Geom
deriving DecidableEq

/-- A GeoDataFrame: rows plus a collection-level CRS tag. -/
structure GeoDataFrame where
  rows : List Feature
  crs : Nat
deriving DecidableEq

/-- Column access `row[col]` on a row (e.g. `states_gdf["STUSPS"]`,
src/utilities.py line 82). -/
def getCol (f : Feature) (col : String) : String :=
  (List.lookup col f.attrs).getD ""

/-- `gdf.to_crs(target)` (src/utilities.py line 98): every geometry is
reprojected from the frame's CRS into the target CRS and the frame is
retagged. -/
def toCrs (reproj : Nat → Nat → Geom → Geom) (gdf : GeoDataFrame)
    (target : Nat) : GeoDataFrame :=
  { rows := gdf.rows.map (fun f => { f with geom := reproj gdf.crs target f.geom }),
    crs := target }

/-- `gpd.sjoin(left, right, how="inner", predicate="intersects")`
(src/utilities.py lines 99-101): each left row is paired with every right
row whose geometry it intersects; the output row keeps the left geometry
and attributes, appends the right row's non-geometry attributes, and adds
an `index_right` column holding the right row's index.  The output frame
keeps the left CRS.  Only the inner/intersects configuration used by the
source is embedded. -/
def sjoin (left right : GeoDataFrame) : GeoDataFrame :=
  { rows := left.rows.flatMap (fun l =>
      (right.rows.enum.filter (fun ir => intersects l.geom ir.2.geom)).map
        (fun ir =>
          { attrs := l.attrs ++ ir.2.attrs ++ [("index_right", toString ir.1)],
            geom := l.geom })),
    crs := left.crs }

/-- `gdf.drop(columns=[col])` (src/utilities.py line 102): remove the
named column from every row. -/
def dropColumn (gdf : GeoDataFrame) (col : String) : GeoDataFrame :=
  { rows := gdf.rows.map (fun f =>
      { f with attrs := f.attrs.filter (fun kv => kv.1 ≠ col) }),
    crs := gdf.crs }

/-- `filter_by_regions_gdf` (src/utilities.py lines 87-102): reproject
the filter regions into the feature frame's CRS, inner spatial join on
`intersects`, then drop the `index_right` join artifact. -/
def filter_by_regions_gdf (reproj : Nat → Nat → Geom → Geom)
    (geodataframe filter_regions_gdf : GeoDataFrame) : GeoDataFrame :=
  dropColumn (sjoin geodataframe (toCrs reproj filter_regions_gdf geodataframe.crs))
    "index_right"

/-- `filter_by_states` (src/utilities.py lines 61-84) with the content of
the boundary shapefile passed explicitly: the source loads `states_gdf`
from `shapefiles/tl_2023_us_state/tl_2023_us_state.shp` (line 77-79), an
external data file not in the repository, so the loaded frame is a
parameter here.  Line 82 keeps the rows whose `STUSPS` column is in
`state_names`; the result is passed to `filter_by_regions_gdf`
(line 84).  A single `str` argument is wrapped into a one-element list by
lines 74-75, so the embedding takes a list. -/
def filter_by_states (reproj : Nat → Nat → Geom → Geom)
    (states_gdf : GeoDataFrame) (geodataframe : GeoDataFrame)
    (state_names : List String) : GeoDataFrame :=
  filter_by_regions_gdf reproj geodataframe
    { rows := states_gdf.rows.filter
        (fun r => state_names.contains (getCol r "STUSPS")),
      crs := states_gdf.crs }

/-! ## Concrete instances used to evaluate the definitions -/

/-- A region table exhibiting a name (`"west"`) that is both a
macro-region key and a subregion key nested inside a different
macro-region; the repository's own table has no such collision, so the
two-level lookup is exercised on this one. -/
def demoRegions : RegionTable :=
  [("alpha", [("west", ["AA"])]),
   ("west", [("w1", ["BB", "CC"])])]

/-- A reprojection that leaves geometries unchanged (every CRS pair maps
a geometry to itself). -/
def reprojId : Nat → Nat → Geom → Geom := fun _ _ g => g

/-- A boundary row for California. -/
def caRow : Feature := { attrs := [("STUSPS", "CA")], geom := ⟨[(0, 0)]⟩ }

/-- A boundary row for Nevada. -/
def nvRow : Feature := { attrs := [("STUSPS", "NV")], geom := ⟨[(1, 0)]⟩ }

/-- A two-state boundary reference frame. -/
def demoStates : GeoDataFrame := { rows := [caRow, nvRow], crs := 0 }

/-- A feature frame with a single urban area that intersects both
`caRow` and `nvRow`. -/
def demoFeatures : GeoDataFrame :=
  { rows := [{ attrs := [("name", "u")], geom := ⟨[(0, 0), (1, 0)]⟩ }], crs := 0 }

/-! ## Helper lemmas -/

theorem charToLower_ne_S (c : Char) : Char.toLower c ≠ 'S' := by
  intro h
  simp only [Char.toLower] at h
  split at h
  next hc =>
    obtain ⟨h1, h2⟩ := hc
    generalize hgen : c.toNat = n at h1 h2 h
    interval_cases n <;> exact absurd h (by decide)
  next hc =>
    subst h
    exact hc (by decide)

theorem strLower_ne_South (s : String) : strLower s ≠ "South" := by
  intro h
  have hd : s.data.map Char.toLower = ['S', 'o', 'u', 't', 'h'] :=
    congrArg String.data h
  cases hs : s.data with
  | nil => rw [hs] at hd; simp at hd
  | cons c t =>
    rw [hs] at hd
    simp only [List.map_cons, List.cons.injEq] at hd
    exact charToLower_ne_S c hd.1

theorem lookup_eq_none_of_ne {β : Type} (k : String)
    (l : List (String × β)) (h : ∀ e ∈ l, k ≠ e.1) :
    List.lookup k l = none := by
  induction l with
  | nil => rfl
  | cons e t ih =>
    obtain ⟨a, b⟩ := e
    have hk : (k == a) = false := by
      simpa using h (a, b) (List.mem_cons_self _ _)
    simp only [List.lookup_cons, hk]
    exact ih fun e' he' => h e' (List.mem_cons_of_mem _ he')

theorem foldl_sub_none (k : String) (l : RegionTable)
    (h : ∀ e ∈ l, List.lookup k e.2 = none) :
    ∀ init : Finset String, l.foldl (subContributionStep k) init = init := by
  induction l with
  | nil => intro init; rfl
  | cons e t ih =>
    intro init
    rw [List.foldl_cons]
    have he := h e (List.mem_cons_self _ _)
    rw [show subContributionStep k init e = init by
      simp [subContributionStep, he]]
    exact ih (fun e' he' => h e' (List.mem_cons_of_mem _ he')) init

theorem foldl_sub_single (k : String) (l : RegionTable) (abbrs : List String)
    (h : l.filterMap (fun e => List.lookup k e.2) = [abbrs]) :
    ∀ init : Finset String,
      l.foldl (subContributionStep k) init = init ∪ abbrs.toFinset := by
  induction l with
  | nil => simp at h
  | cons e t ih =>
    intro init
    rw [List.foldl_cons]
    rw [List.filterMap_cons] at h
    cases hl : List.lookup k e.2 with
    | none =>
      rw [hl] at h
      rw [show subContributionStep k init e = init by
        simp [subContributionStep, hl]]
      exact ih h init
    | some a =>
      rw [hl] at h
      simp only [List.cons.injEq] at h
      obtain ⟨rfl, ht⟩ := h
      rw [show subContributionStep k init e = init ∪ a.toFinset by
        simp [subContributionStep, hl]]
      exact foldl_sub_none k t (List.filterMap_eq_nil_iff.mp ht) _

theorem processName_no_match (name : String)
    (hm : List.lookup (strLower name) regionsTable = none)
    (hs : ∀ e ∈ regionsTable, List.lookup (strLower name) e.2 = none) :
    ∀ acc : Finset String, processName regionsTable acc name = acc := by
  intro acc
  unfold processName
  rw [hm]
  exact foldl_sub_none _ _ hs acc

theorem flatMap_const_nil {α β : Type} (l : List α) :
    l.flatMap (fun _ => ([] : List β)) = [] := by
  induction l with
  | nil => rfl
  | cons a t ih => simpa [List.flatMap_cons] using ih

theorem flatMap_if_filter_map {α β : Type} (p : α → Bool) (f : α → β)
    (l : List α) :
    l.flatMap (fun a => if p a then [f a] else []) = (l.filter p).map f := by
  induction l with
  | nil => rfl
  | cons a t ih =>
    cases hpa : p a <;>
      simp [List.flatMap_cons, List.filter_cons, hpa, ih]

theorem filter_rows_eq (reproj : Nat → Nat → Geom → Geom)
    (F R : GeoDataFrame) :
    (filter_by_regions_gdf reproj F R).rows =
      F.rows.flatMap (fun l =>
        (((toCrs reproj R F.crs).rows.enum.filter
            (fun ir => intersects l.geom ir.2.geom)).map
          (fun ir =>
            ({ attrs := (l.attrs ++ ir.2.attrs ++
                [("index_right", toString ir.1)]).filter
                  (fun kv => kv.1 ≠ "index_right"),
               geom := l.geom } : Feature)))) := by
  show ((F.rows.flatMap _).map _) = _
  rw [List.map_flatMap]
  simp only [List.map_map]
  rfl

theorem filter_by_regions_single (reproj : Nat → Nat → Geom → Geom)
    (F : GeoDataFrame) (b : Feature) (c : Nat)
    (hF : ∀ l ∈ F.rows, ∀ kv ∈ l.attrs, kv.1 ≠ "index_right")
    (hb : ∀ kv ∈ b.attrs, kv.1 ≠ "index_right") :
    (filter_by_regions_gdf reproj F { rows := [b], crs := c }).rows =
      (F.rows.filter (fun l => intersects l.geom (reproj c F.crs b.geom))).map
        (fun l => { attrs := l.attrs ++ b.attrs, geom := l.geom }) := by
  rw [filter_rows_eq]
  rw [show (toCrs reproj { rows := [b], crs := c } F.crs).rows =
      [{ attrs := b.attrs, geom := reproj c F.crs b.geom }] from rfl]
  simp only [List.enum_cons, List.enumFrom_nil, List.filter_cons,
    List.filter_nil, List.map_cons, List.map_nil, apply_ite (List.map _)]
  rw [flatMap_if_filter_map]
  apply List.map_congr_left
  intro l hl
  have hlmem : l ∈ F.rows := (List.mem_filter.mp hl).1
  have h1 : l.attrs.filter (fun kv => (kv.1 ≠ "index_right" : Bool)) = l.attrs :=
    List.filter_eq_self.mpr (by
      intro kv hkv
      simpa using hF l hlmem kv hkv)
  have h2 : b.attrs.filter (fun kv => (kv.1 ≠ "index_right" : Bool)) = b.attrs :=
    List.filter_eq_self.mpr (by
      intro kv hkv
      simpa using hb kv hkv)
  simp only [List.filter_append, h1, h2]
  simp

theorem dropColumn_no_col (gdf : GeoDataFrame) (col : String) :
    ∀ row ∈ (dropColumn gdf col).rows, ∀ kv ∈ row.attrs, kv.1 ≠ col := by
  intro row hrow kv hkv
  unfold dropColumn at hrow
  obtain ⟨f, hf, rfl⟩ := List.mem_map.mp hrow
  simpa using (List.mem_filter.mp hkv).2

theorem exists_mem_enumFrom_iff {α : Type} (P : α → Prop) :
    ∀ (l : List α) (n : Nat),
      (∃ ir ∈ List.enumFrom n l, P ir.2) ↔ ∃ b ∈ l, P b := by
  intro l
  induction l with
  | nil => intro n; simp [List.enumFrom]
  | cons a t ih =>
    intro n
    simp only [List.enumFrom, List.mem_cons]
    constructor
    · rintro ⟨ir, hir | hir, hP⟩
      · exact ⟨a, Or.inl rfl, by rw [hir] at hP; exact hP⟩
      · obtain ⟨b, hb, hPb⟩ := (ih (n + 1)).mp ⟨ir, hir, hP⟩
        exact ⟨b, Or.inr hb, hPb⟩
    · rintro ⟨b, rfl | hb, hPb⟩
      · exact ⟨(n, b), Or.inl rfl, hPb⟩
      · obtain ⟨ir, hir, hP⟩ := (ih (n + 1)).mpr ⟨b, hb, hPb⟩
        exact ⟨ir, Or.inr hir, hP⟩

theorem exists_mem_enum_iff {α : Type} (P : α → Prop) (l : List α) :
    (∃ ir ∈ l.enum, P ir.2) ↔ ∃ b ∈ l, P b :=
  exists_mem_enumFrom_iff P l 0

theorem snd_mem_of_mem_enumFrom {α : Type} :
    ∀ (l : List α) (n : Nat) (ir : Nat × α),
      ir ∈ List.enumFrom n l → ir.2 ∈ l := by
  intro l
  induction l with
  | nil => intro n ir h; simp [List.enumFrom] at h
  | cons a t ih =>
    intro n ir h
    simp only [List.enumFrom, List.mem_cons] at h
    rcases h with rfl | h
    · exact List.mem_cons_self _ _
    · exact List.mem_cons_of_mem _ (ih (n + 1) ir h)

theorem geom_mem_filter (reproj : Nat → Nat → Geom → Geom)
    (L R : GeoDataFrame) (g : Geom) :
    g ∈ (filter_by_regions_gdf reproj L R).rows.map Feature.geom ↔
      ∃ l ∈ L.rows, l.geom = g ∧
        ∃ b ∈ (toCrs reproj R L.crs).rows,
          intersects l.geom b.geom = true := by
  rw [filter_rows_eq]
  rw [List.map_flatMap]
  simp only [List.mem_flatMap, List.map_map, List.mem_map, Function.comp,
    List.mem_filter]
  constructor
  · rintro ⟨l, hl, ir, ⟨hir, hint⟩, rfl⟩
    exact ⟨l, hl, rfl, ir.2, snd_mem_of_mem_enumFrom _ 0 ir hir, hint⟩
  · rintro ⟨l, hl, rfl, b, hb, hint⟩
    obtain ⟨ir, hir, hint2⟩ :=
      (exists_mem_enum_iff (fun x => intersects l.geom x.geom = true) _).mpr
        ⟨b, hb, hint⟩
    exact ⟨l, hl, ir, ⟨hir, hint2⟩, rfl⟩

/-! ## Claim theorems -/

/-- C1: the claim says every macro-region name recognized by the table,
matched case-insensitively, expands to the deduplicated union of its
subregions' abbreviations.  The code diverges at the table's own key
`"South"`: the lookup lower-cases the input while the key is stored
capitalized, so `get_state_abbreviations_from_region ["South"]` is empty
instead of the union of the South subregions. -/
theorem south_region_lookup_returns_empty :
    get_state_abbreviations_from_region ["South"] ≠
      (southSubregions.flatMap Prod.snd).toFinset ∧
    get_state_abbreviations_from_region ["South"] = ∅ := by
  decide

/-- C2: the claim says `["Northeast", "South"]` expands to the union of
both macro-regions' abbreviation sets, containing `"CT"` and `"TX"`.
Evaluating the code: the result is exactly the Northeast union (the dead
`"South"` key contributes nothing), so `"CT"` is present but `"TX"` is
not. -/
theorem northeast_south_expansion_eval :
    get_state_abbreviations_from_region ["Northeast", "South"] =
      (["CT", "ME", "MA", "NH", "RI", "VT", "NJ", "NY", "PA"] :
        List String).toFinset ∧
    "CT" ∈ get_state_abbreviations_from_region ["Northeast", "South"] ∧
    "TX" ∉ get_state_abbreviations_from_region ["Northeast", "South"] := by
  decide

/-- C3: a name matching neither a macro-region key nor any subregion key
under any casing (no casing of the name coincides with a key, i.e. its
lowering differs from every key's lowering) yields an empty result, and
contributes nothing when appended to any other query list; no error path
exists (the embedded function is total). -/
theorem unmatched_name_contributes_nothing (name : String)
    (h1 : ∀ e ∈ regionsTable, strLower name ≠ strLower e.1)
    (h2 : ∀ e ∈ regionsTable, ∀ s ∈ e.2, strLower name ≠ strLower s.1) :
    get_state_abbreviations_from_region [name] = ∅ ∧
    ∀ other : List String,
      get_state_abbreviations_from_region (other ++ [name]) =
        get_state_abbreviations_from_region other := by
  have hm : List.lookup (strLower name) regionsTable = none := by
    apply lookup_eq_none_of_ne
    intro e he
    simp only [regionsTable, List.mem_cons, List.not_mem_nil, or_false] at he
    rcases he with rfl | rfl | rfl | rfl
    · have := h1 ("northeast", northeastSubregions) (by simp [regionsTable])
      rwa [show strLower "northeast" = "northeast" from by decide] at this
    · have := h1 ("midwest", midwestSubregions) (by simp [regionsTable])
      rwa [show strLower "midwest" = "midwest" from by decide] at this
    · exact strLower_ne_South name
    · have := h1 ("west", westSubregions) (by simp [regionsTable])
      rwa [show strLower "west" = "west" from by decide] at this
  have hlowsub : ∀ e ∈ regionsTable, ∀ s ∈ e.2, strLower s.1 = s.1 := by decide
  have hs : ∀ e ∈ regionsTable, List.lookup (strLower name) e.2 = none := by
    intro e he
    apply lookup_eq_none_of_ne
    intro s hse
    rw [← hlowsub e he s hse]
    exact h2 e he s hse
  have hstep := processName_no_match name hm hs
  constructor
  · unfold get_state_abbreviations_from_region getStateAbbreviationsCore
    rw [List.foldl_cons, List.foldl_nil]
    exact hstep ∅
  · intro other
    unfold get_state_abbreviations_from_region getStateAbbreviationsCore
    rw [List.foldl_append, List.foldl_cons, List.foldl_nil]
    exact hstep _

theorem unmatched_name_contributes_nothing_witness :
    (∀ e ∈ regionsTable, strLower "Atlantis" ≠ strLower e.1) ∧
    (∀ e ∈ regionsTable, ∀ s ∈ e.2, strLower "Atlantis" ≠ strLower s.1) ∧
    get_state_abbreviations_from_region ["Atlantis"] = ∅ ∧
    get_state_abbreviations_from_region (["Northeast"] ++ ["Atlantis"]) =
      get_state_abbreviations_from_region ["Northeast"] :=
  ⟨by decide, by decide,
    (unmatched_name_contributes_nothing "Atlantis" (by decide) (by decide)).1,
    (unmatched_name_contributes_nothing "Atlantis" (by decide) (by decide)).2
      ["Northeast"]⟩

/-- C4: a name whose lowering is simultaneously a macro-region key (with
subtable `subs`) and the key of exactly one subregion nested in some
macro-region (with abbreviations `abbrs`) expands to the union of both
contributions: every abbreviation under the matched macro-region plus
that subregion's abbreviations.  Stated over the table-parameterized
lookup algorithm; the repository's concrete table has no colliding name,
so the property is witnessed on `demoRegions`. -/
theorem macro_and_subregion_both_contribute (regions : RegionTable)
    (name : String) (subs : List (String × List String))
    (abbrs : List String)
    (h1 : List.lookup (strLower name) regions = some subs)
    (h2 : regions.filterMap (fun e => List.lookup (strLower name) e.2) =
      [abbrs]) :
    getStateAbbreviationsCore regions [name] =
      (subs.flatMap Prod.snd).toFinset ∪ abbrs.toFinset := by
  unfold getStateAbbreviationsCore
  rw [List.foldl_cons, List.foldl_nil]
  unfold processName
  rw [h1]
  rw [foldl_sub_single _ _ _ h2]
  simp

theorem macro_and_subregion_both_contribute_witness :
    List.lookup (strLower "West") demoRegions = some [("w1", ["BB", "CC"])] ∧
    demoRegions.filterMap (fun e => List.lookup (strLower "West") e.2) =
      [["AA"]] ∧
    getStateAbbreviationsCore demoRegions ["West"] =
      (([("w1", ["BB", "CC"])] :
          List (String × List String)).flatMap Prod.snd).toFinset ∪
        (["AA"] : List String).toFinset :=
  ⟨by decide, by decide,
    macro_and_subregion_both_contribute demoRegions "West"
      [("w1", ["BB", "CC"])] ["AA"] (by decide) (by decide)⟩

/-- C5: when no row of the reference boundary frame has its `STUSPS`
value among the requested state names (in particular when the requested
list is empty), `filter_by_states` returns a frame with no rows, and no
error path exists (the embedded function is total). -/
theorem no_matching_states_yields_empty (reproj : Nat → Nat → Geom → Geom)
    (states_gdf F : GeoDataFrame) (state_names : List String)
    (h : ∀ r ∈ states_gdf.rows,
      state_names.contains (getCol r "STUSPS") = false) :
    (filter_by_states reproj states_gdf F state_names).rows = [] := by
  have hsel : states_gdf.rows.filter
      (fun r => state_names.contains (getCol r "STUSPS")) = [] := by
    rw [List.filter_eq_nil_iff]
    intro r hr
    simpa using h r hr
  unfold filter_by_states
  rw [filter_rows_eq]
  rw [show (toCrs reproj
      { rows := states_gdf.rows.filter
          (fun r => state_names.contains (getCol r "STUSPS")),
        crs := states_gdf.crs } F.crs).rows =
      (states_gdf.rows.filter
        (fun r => state_names.contains (getCol r "STUSPS"))).map
        (fun f => { f with geom := reproj states_gdf.crs F.crs f.geom })
      from rfl]
  rw [hsel]
  simp only [List.map_nil, List.enum_nil, List.filter_nil]
  exact flatMap_const_nil F.rows

theorem no_matching_states_yields_empty_witness :
    (∀ r ∈ demoStates.rows,
      ([] : List String).contains (getCol r "STUSPS") = false) ∧
    (filter_by_states reprojId demoStates demoFeatures []).rows = [] :=
  ⟨by decide,
    no_matching_states_yields_empty reprojId demoStates demoFeatures []
      (by decide)⟩

/-- C6: when the reference frame's rows with `STUSPS` in `["CA"]` are
exactly one boundary row `b`, `filter_by_states F ["CA"]` keeps exactly
the rows of `F` whose geometry intersects the California boundary
reprojected into `F`'s CRS, each keeping its original attributes and
geometry (with the boundary's attributes appended by the join), the
result carries `F`'s CRS, and no `index_right` column is present. -/
theorem filter_by_states_california_exact (reproj : Nat → Nat → Geom → Geom)
    (states_gdf F : GeoDataFrame) (b : Feature)
    (hb : states_gdf.rows.filter
        (fun r => (["CA"] : List String).contains (getCol r "STUSPS")) = [b])
    (hF : ∀ l ∈ F.rows, ∀ kv ∈ l.attrs, kv.1 ≠ "index_right")
    (hbattr : ∀ kv ∈ b.attrs, kv.1 ≠ "index_right") :
    (filter_by_states reproj states_gdf F ["CA"]).crs = F.crs ∧
    (filter_by_states reproj states_gdf F ["CA"]).rows =
      (F.rows.filter
          (fun l => intersects l.geom (reproj states_gdf.crs F.crs b.geom))).map
        (fun l => { attrs := l.attrs ++ b.attrs, geom := l.geom }) ∧
    ∀ row ∈ (filter_by_states reproj states_gdf F ["CA"]).rows,
      ∀ kv ∈ row.attrs, kv.1 ≠ "index_right" := by
  refine ⟨rfl, ?_, ?_⟩
  · unfold filter_by_states
    rw [hb]
    exact filter_by_regions_single reproj F b states_gdf.crs hF hbattr
  · intro row hrow
    exact dropColumn_no_col _ _ row hrow

theorem filter_by_states_california_exact_witness :
    (demoStates.rows.filter
        (fun r => (["CA"] : List String).contains (getCol r "STUSPS")) =
      [caRow]) ∧
    (∀ l ∈ demoFeatures.rows, ∀ kv ∈ l.attrs, kv.1 ≠ "index_right") ∧
    (∀ kv ∈ caRow.attrs, kv.1 ≠ "index_right") ∧
    ((filter_by_states reprojId demoStates demoFeatures ["CA"]).crs =
        demoFeatures.crs ∧
      (filter_by_states reprojId demoStates demoFeatures ["CA"]).rows =
        (demoFeatures.rows.filter
            (fun l => intersects l.geom
              (reprojId demoStates.crs demoFeatures.crs caRow.geom))).map
          (fun l => { attrs := l.attrs ++ caRow.attrs, geom := l.geom }) ∧
      ∀ row ∈ (filter_by_states reprojId demoStates demoFeatures ["CA"]).rows,
        ∀ kv ∈ row.attrs, kv.1 ≠ "index_right") :=
  ⟨by decide, by decide, by decide,
    filter_by_states_california_exact reprojId demoStates demoFeatures caRow
      (by decide) (by decide) (by decide)⟩

/-- C7: in the shared join step the boundary frame is reprojected into
the feature frame's CRS (the feature frame's CRS is authoritative): the
returned frame carries the feature frame's CRS, and a boundary frame
already reprojected into the feature CRS filters identically (assuming
same-CRS reprojection is the identity, which holds of any genuine
reprojection). -/
theorem boundaries_reprojected_to_feature_crs
    (reproj : Nat → Nat → Geom → Geom) (F B : GeoDataFrame)
    (hid : ∀ c g, reproj c c g = g) :
    (filter_by_regions_gdf reproj F B).crs = F.crs ∧
    filter_by_regions_gdf reproj F (toCrs reproj B F.crs) =
      filter_by_regions_gdf reproj F B := by
  refine ⟨rfl, ?_⟩
  unfold filter_by_regions_gdf
  rw [show toCrs reproj (toCrs reproj B F.crs) F.crs = toCrs reproj B F.crs by
    unfold toCrs
    simp only [List.map_map]
    congr 1
    apply List.map_congr_left
    intro f _
    simp [Function.comp, hid]]

theorem boundaries_reprojected_to_feature_crs_witness :
    (∀ c g, reprojId c c g = g) ∧
    ((filter_by_regions_gdf reprojId demoFeatures demoStates).crs =
        demoFeatures.crs ∧
      filter_by_regions_gdf reprojId demoFeatures
          (toCrs reprojId demoStates demoFeatures.crs) =
        filter_by_regions_gdf reprojId demoFeatures demoStates) :=
  ⟨fun _ _ => rfl,
    boundaries_reprojected_to_feature_crs reprojId demoFeatures demoStates
      (fun _ _ => rfl)⟩

/-- C8 counterexample: re-applying `filter_by_states` with the same state
set does not reproduce the same frame.  A feature intersecting both the
California and Nevada boundaries appears twice after one filter and four
times after two (each surviving row is re-duplicated per intersecting
boundary, and the join re-appends boundary columns), so the filter is not
idempotent as claimed. -/
theorem refilter_differs_counterexample :
    filter_by_states reprojId demoStates
        (filter_by_states reprojId demoStates demoFeatures ["CA", "NV"])
        ["CA", "NV"] ≠
      filter_by_states reprojId demoStates demoFeatures ["CA", "NV"] := by
  decide

/-- C8 amended: re-filtering by the same state set preserves exactly the
set of feature geometries retained — every geometry present in the
once-filtered frame is present in the twice-filtered frame and
conversely.  Full frame equality fails (see the counterexample) because
rows are re-duplicated once per intersecting boundary and the join
appends further boundary columns. -/
theorem refilter_preserves_geometry_set (reproj : Nat → Nat → Geom → Geom)
    (states_gdf F : GeoDataFrame) (state_names : List String) :
    ((filter_by_states reproj states_gdf
        (filter_by_states reproj states_gdf F state_names)
        state_names).rows.map Feature.geom).toFinset =
      ((filter_by_states reproj states_gdf F state_names).rows.map
        Feature.geom).toFinset := by
  ext g
  simp only [List.mem_toFinset]
  unfold filter_by_states
  constructor
  · intro hg
    rw [geom_mem_filter] at hg
    obtain ⟨l, hl, rfl, b, hb, hint⟩ := hg
    exact List.mem_map_of_mem Feature.geom hl
  · intro hg
    obtain ⟨r, hr, rfl⟩ := List.mem_map.mp hg
    have h1 := List.mem_map_of_mem Feature.geom hr
    rw [geom_mem_filter] at h1
    obtain ⟨l, hl, hlg, b, hb, hint⟩ := h1
    rw [geom_mem_filter]
    refine ⟨r, hr, rfl, b, hb, ?_⟩
    rw [← hlg]
    exact hint

/-- C10: the macro-region branch for `"South"` is dead code.  Because the
lookup lower-cases the input while the table stores the key `"South"`
capitalized, no input string in any casing makes the macro-region lookup
return the South subtable; in particular `"South"`, `"south"` and
`"SOUTH"` all expand to the empty set. -/
theorem south_macro_branch_unreachable :
    (∀ name : String,
      List.lookup (strLower name) regionsTable ≠ some southSubregions) ∧
    get_state_abbreviations_from_region ["South"] = ∅ ∧
    get_state_abbreviations_from_region ["south"] = ∅ ∧
    get_state_abbreviations_from_region ["SOUTH"] = ∅ := by
  refine ⟨?_, by decide, by decide, by decide⟩
  intro name h
  by_cases hne : strLower name = "northeast"
  · rw [hne] at h; exact absurd h (by decide)
  by_cases hmw : strLower name = "midwest"
  · rw [hmw] at h; exact absurd h (by decide)
  by_cases hw : strLower name = "west"
  · rw [hw] at h; exact absurd h (by decide)
  have hnone : List.lookup (strLower name) regionsTable = none := by
    apply lookup_eq_none_of_ne
    intro e he
    simp only [regionsTable, List.mem_cons, List.not_mem_nil, or_false] at he
    rcases he with rfl | rfl | rfl | rfl
    · exact hne
    · exact hmw
    · exact strLower_ne_South name
    · exact hw
  rw [hnone] at h
  exact absurd h (by simp)
